/-
  Verification of tidevice/_safe_socket.py (douniwan5788/taobao-iphone-device).

  Shallow embedding of the module's data model and operations:
  - `get_uniq_id` (module-level counter under a lock) as a pure step function
    on the counter state;
  - `SafeStreamSocket.__init__` address dispatch as a pure function from the
    address shape (and an `os.path.exists` oracle) to a connect outcome;
  - `SafeStreamSocket.recvall` as a fuel-free loop over an adversarially
    chunked byte stream;
  - `SafeStreamSocket.close` / `weakref.finalize` as a state transition with
    an explicit close-event log;
  - `SafeStreamSocket.switch_to_ssl` as a guarded state transition;
  - `PlistSocket.send_packet` / `recv_packet` with the exact header layouts
    (`struct.pack("IIII", ...)` native little-endian, `struct.pack(">I", ...)`
    big-endian).

  The external Python standard library `plistlib` is not part of the
  repository; it is modelled here by an inductive type of plist values with
  an injective, self-delimiting serialization (`plistlib.dumps`) and its
  inverse parser (`plistlib.loads`).  Bytes are modelled as `Nat`.
-/
import Mathlib

namespace SafeSocket

/-! ## u32 packing, as done by Python `struct`.

`struct.pack("IIII", ...)` uses native byte order (little-endian on the
platforms the tool targets); `struct.pack(">I", ...)` is big-endian.
`struct.pack` raises `struct.error` when a value does not fit in 32 bits,
so the callers below guard with `< 2^32`. -/

/-- Little-endian 4-byte encoding of a `u32` (native order of `struct.pack("I", n)`). -/

def u32le (n : Nat) : List Nat :=
  [n % 256, n / 256 % 256, n / 256 ^ 2 % 256, n / 256 ^ 3 % 256]

/-- Big-endian 4-byte encoding of a `u32` (`struct.pack(">I", n)`). -/

def u32be (n : Nat) : List Nat :=
  [n / 256 ^ 3 % 256, n / 256 ^ 2 % 256, n / 256 % 256, n % 256]

/-- Little-endian decoding of 4 bytes (`struct.unpack("I", b)` on one field). -/

def unU32le (b : List Nat) : Nat :=
  match b with
  | [b0, b1, b2, b3] => b0 + 256 * b1 + 256 ^ 2 * b2 + 256 ^ 3 * b3
  | _ => 0

/-- Big-endian decoding of 4 bytes (`struct.unpack(">I", b)`). -/

def unU32be (b : List Nat) : Nat :=
  match b with
  | [b0, b1, b2, b3] => 256 ^ 3 * b0 + 256 ^ 2 * b1 + 256 * b2 + b3
  | _ => 0

/-! ## Model of the external `plistlib` serializer.

`plistlib` is the Python standard library, not code of this repository.
What `send_packet`/`recv_packet` rely on is that `plistlib.dumps` maps a
payload (an ordered mapping of string keys to values of a small set of
primitive/nested types, per the spec's glossary) to a self-delimiting byte
string and that `plistlib.loads` is its inverse.  We model the value space
faithfully and use a tagged, length-prefixed serialization; lengths and
character codes are single `Nat` symbols (the model's byte alphabet is
`Nat`), which preserves the properties the framing layer depends on:
injectivity, a computable length, and a computable inverse. -/

/-- A plist value: string, integer, boolean, binary blob, array, or ordered
dictionary with string keys (the payload type of `PlistSocket`). -/

inductive PlistValue where
  | str : String → PlistValue
  | int : Int → PlistValue
  | bool : Bool → PlistValue
  | data : List Nat → PlistValue
  | array : List PlistValue → PlistValue
  | dict : List (String × PlistValue) → PlistValue

/-- Length-prefixed encoding of a string (used for string values and for
dictionary keys). -/

def encStr (s : String) : List Nat :=
  s.length :: s.toList.map Char.toNat

mutual

/-- Model of `plistlib.dumps`: tagged, self-delimiting encoding of a value. -/
def plistDumps : PlistValue → List Nat
  | .str s => 0 :: encStr s
  | .int i => [1, if i < 0 then 1 else 0, i.natAbs]
  | .bool b => [2, if b then 1 else 0]
  | .data d => 3 :: d.length :: d
  | .array xs => 4 :: xs.length :: dumpsList xs
  | .dict kvs => 5 :: kvs.length :: dumpsDict kvs

/-- Concatenated encodings of the elements of an array value. -/
def dumpsList : List PlistValue → List Nat
  | [] => []
  | v :: vs => plistDumps v ++ dumpsList vs

/-- Concatenated key/value encodings of the entries of a dictionary value. -/
def dumpsDict : List (String × PlistValue) → List Nat
  | [] => []
  | (k, v) :: kvs => encStr k ++ (plistDumps v ++ dumpsDict kvs)

end

/-- Parse a length-prefixed string. -/

def parseStr : List Nat → Option (String × List Nat)
  | [] => none
  | n :: rest =>
    if n ≤ rest.length then
      some (String.mk ((rest.take n).map Char.ofNat), rest.drop n)
    else none

mutual

/-- Inverse of `plistDumps` (fuelled; the fuel only bounds nesting depth). -/
def parseVal : Nat → List Nat → Option (PlistValue × List Nat)
  | 0, _ => none
  | _ + 1, [] => none
  | fuel + 1, t :: rest =>
    if t = 0 then
      (parseStr rest).map fun sr => (.str sr.1, sr.2)
    else if t = 1 then
      match rest with
      | sgn :: m :: r =>
        some (.int (if sgn = 1 then -(m : Int) else (m : Int)), r)
      | _ => none
    else if t = 2 then
      match rest with
      | b :: r => some (.bool (b = 1), r)
      | _ => none
    else if t = 3 then
      match rest with
      | n :: r => if n ≤ r.length then some (.data (r.take n), r.drop n) else none
      | _ => none
    else if t = 4 then
      match rest with
      | n :: r => (parseList fuel n r).map fun xr => (.array xr.1, xr.2)
      | _ => none
    else if t = 5 then
      match rest with
      | n :: r => (parseDict fuel n r).map fun xr => (.dict xr.1, xr.2)
      | _ => none
    else none

/-- Parse `n` consecutive values. -/
def parseList : Nat → Nat → List Nat → Option (List PlistValue × List Nat)
  | _, 0, r => some ([], r)
  | 0, _ + 1, _ => none
  | fuel + 1, n + 1, r =>
    match parseVal fuel r with
    | none => none
    | some (v, r1) =>
      match parseList fuel n r1 with
      | none => none
      | some (vs, r2) => some (v :: vs, r2)

/-- Parse `n` consecutive key/value pairs. -/
def parseDict : Nat → Nat → List Nat → Option (List (String × PlistValue) × List Nat)
  | _, 0, r => some ([], r)
  | 0, _ + 1, _ => none
  | fuel + 1, n + 1, r =>
    match parseStr r with
    | none => none
    | some (k, r1) =>
      match parseVal fuel r1 with
      | none => none
      | some (v, r2) =>
        match parseDict fuel n r2 with
        | none => none
        | some (kvs, r3) => some ((k, v) :: kvs, r3)

end

mutual

/-- Fuel sufficient for `parseVal` to parse the encoding of a value. -/
def fuelOf : PlistValue → Nat
  | .str _ => 1
  | .int _ => 1
  | .bool _ => 1
  | .data _ => 1
  | .array xs => 1 + fuelOfList xs
  | .dict kvs => 1 + fuelOfDict kvs

/-- Fuel sufficient for `parseList`. -/
def fuelOfList : List PlistValue → Nat
  | [] => 0
  | v :: vs => 1 + max (fuelOf v) (fuelOfList vs)

/-- Fuel sufficient for `parseDict`. -/
def fuelOfDict : List (String × PlistValue) → Nat
  | [] => 0
  | (_, v) :: kvs => 1 + max (fuelOf v) (fuelOfDict kvs)

end

/-- Model of `plistlib.loads`: parse a complete buffer, rejecting malformed
or incompletely consumed input. -/

def plistLoads (body : List Nat) : Option PlistValue :=
  match parseVal (body.length + 1) body with
  | some (v, []) => some v
  | _ => none

/-! ## `get_uniq_id`

```python
_n = [0]
_nlock = threading.Lock()

def get_uniq_id() -> int:
    with _nlock:
        _n[0] += 1
        return _n[0]
```

The lock makes concurrent calls linearize; we model the linearized
sequence of calls as iteration of the pure step function on the counter
cell `_n[0]`. -/

/-- One call to `get_uniq_id`: returns (new counter state, returned id). -/

def get_uniq_id (n : Nat) : Nat × Nat := (n + 1, n + 1)

/-- Counter state after `k` completed calls, starting from `n0`. -/

def uniqCounterAfter (n0 : Nat) : Nat → Nat
  | 0 => n0
  | k + 1 => (get_uniq_id (uniqCounterAfter n0 k)).1

/-- The value returned by the `(k+1)`-th call to `get_uniq_id`. -/

def uniqIdAt (n0 k : Nat) : Nat := (get_uniq_id (uniqCounterAfter n0 k)).2

/-! ## `SafeStreamSocket.__init__` address dispatch

```python
if isinstance(addr, socket.socket):
    self._sock = addr
else:
    if isinstance(addr, str):
        if ':' in addr:
            host, port = addr.split(":", 1)
            addr = (host, int(port))
            family = socket.AF_INET
        elif os.path.exists(addr):
            family = socket.AF_UNIX
        else:
            raise MuxError("socket unix:{} unable to connect".format(addr))
    else:
        family = socket.AF_INET
    self._sock = socket.socket(family, socket.SOCK_STREAM)
    self._sock.connect(addr)
```
-/

/-- The shapes an `addr` argument can take: an already-open socket object, a
string, or a non-string address (e.g. a `(host, port)` tuple). -/

inductive PyAddr where
  | sock (fd : Nat)
  | str (s : String)
  | tup (host : String) (port : Int)

/-- Outcome of the `__init__` dispatch: adopt the handle, TCP-connect,
unix-socket connect, raise `MuxError`, or raise `ValueError` (from
`int(port)` on a non-numeric port). -/

inductive ConnectOutcome where
  | adopted (fd : Nat)
  | tcpConnect (host : String) (port : Int)
  | unixConnect (path : String)
  | muxError (msg : String)
  | valueError

/-- Python's `':' in addr`: the colon character occurs in the string. -/

def hasColon (s : String) : Bool := s.toList.contains ':'

/-- `addr.split(":", 1)`: the part before the first colon and the part after
it. -/

def splitColon1 (s : String) : String × String :=
  (String.mk (s.toList.takeWhile (· ≠ ':')),
   String.mk ((s.toList.dropWhile (· ≠ ':')).drop 1))

/-- Decimal digit accumulation for `pyInt`. -/

def digitsToNatAux : List Char → Nat → Option Nat
  | [], acc => some acc
  | c :: cs, acc =>
    if c.isDigit then digitsToNatAux cs (acc * 10 + (c.toNat - 48)) else none

/-- A non-empty all-digit character list as a number. -/

def digitsToNat (l : List Char) : Option Nat :=
  if l.isEmpty then none else digitsToNatAux l 0

/-- Model of Python `int(str)`: optional sign followed by decimal digits;
`none` models the `ValueError` raised on any other text. -/

def pyInt (s : String) : Option Int :=
  match s.toList with
  | '-' :: rest => (digitsToNat rest).map fun n => -(n : Int)
  | '+' :: rest => (digitsToNat rest).map fun n => (n : Int)
  | l => (digitsToNat l).map fun n => (n : Int)

/-- The address dispatch of `SafeStreamSocket.__init__`, parameterized by the
`os.path.exists` oracle. -/

def connectAddr (pathExists : String → Bool) (addr : PyAddr) : ConnectOutcome :=
  match addr with
  | .sock fd => .adopted fd
  | .str s =>
    if hasColon s then
      match pyInt (splitColon1 s).2 with
      | some p => .tcpConnect (splitColon1 s).1 p
      | none => .valueError
    else if pathExists s then .unixConnect s
    else .muxError ("socket unix:" ++ s ++ " unable to connect")
  | .tup host port => .tcpConnect host port

/-! ## `SafeStreamSocket.recvall`

```python
def recvall(self, size: int) -> bytearray:
    buf = bytearray()
    while len(buf) < size:
        chunk = self._sock.recv(size - len(buf))
        if not chunk:
            raise MuxError("socket connection broken")
        buf.extend(chunk)
    return buf
```

The underlying socket is modelled as the list of bytes it will deliver
before EOF, together with an adversarial schedule `sched` bounding how many
bytes the `i`-th `recv` call yields: `recv(n)` returns between 1 and `n`
pending bytes when any are pending, and the empty chunk exactly at EOF. -/

/-- One `self._sock.recv(n)` on a stream with `data` pending: delivers
`min n (max (sched i) 1)` bytes (at least one while any are pending, never
more than requested), with the empty chunk exactly when the peer has
closed. -/

def sockRecv (sched : Nat → Nat) (i n : Nat) (data : List Nat) :
    List Nat × List Nat :=
  (data.take (min n (max (sched i) 1)), data.drop (min n (max (sched i) 1)))

/-- The `recvall` accumulation loop.  Returns `none` for the
`MuxError("socket connection broken")` raise; on success returns the buffer,
the bytes still pending on the socket, and the number of `recv` calls
performed. -/

def recvallGo (sched : Nat → Nat) (i size : Nat) (buf data : List Nat)
    (calls : Nat) : Option (List Nat × List Nat × Nat) :=
  if h : buf.length < size then
    let chunk := (sockRecv sched i (size - buf.length) data).1
    if hc : chunk.isEmpty then none
    else
      recvallGo sched (i + 1) size (buf ++ chunk)
        (sockRecv sched i (size - buf.length) data).2 (calls + 1)
  else some (buf, data, calls)
termination_by size - buf.length
decreasing_by
  have hc' : ¬ (sockRecv sched i (size - buf.length) data).1.isEmpty = true := hc
  have hnonempty : (sockRecv sched i (size - buf.length) data).1 ≠ [] := by
    intro hn
    exact hc' (by simp [hn])
  have h1 : 0 < (sockRecv sched i (size - buf.length) data).1.length :=
    List.length_pos.mpr hnonempty
  simp only [List.length_append]
  omega

/-- `SafeStreamSocket.recvall(size)` on a fresh buffer. -/

def recvall (sched : Nat → Nat) (size : Nat) (data : List Nat) :
    Option (List Nat × List Nat × Nat) :=
  recvallGo sched 0 size [] data 0

/-- The observable behaviour of `recvall` on a stream with `l` pending bytes:
exactly `n` bytes delivered in order when available, error otherwise (see
`recvall_eq_recvExact`). -/

def recvExact (n : Nat) (l : List Nat) : Option (List Nat × List Nat) :=
  if n ≤ l.length then some (l.take n, l.drop n) else none

/-! ## `SafeStreamSocket.close` / `weakref.finalize` / `switch_to_ssl`

```python
self._sock_gclist = [self._sock]

def _cleanup(socks):
    ...
    for sock in socks:
        sock.close()

self._finalizer = weakref.finalize(self, _cleanup, self._sock_gclist)

def close(self):
    self._finalizer()

@property
def closed(self) -> bool:
    return not self._finalizer.alive

def switch_to_ssl(self, pemfile):
    assert os.path.isfile(pemfile)
    self._dup_sock = self._sock.dup()
    self._sock_gclist.append(self._dup_sock)
    context = ssl.SSLContext(ssl.PROTOCOL_TLS)
    ...
    context.load_cert_chain(pemfile, keyfile=pemfile)
    ...
    ssock = context.wrap_socket(self._sock, server_hostname="iphone.localhost")
    self._sock = ssock
```

A `weakref.finalize` object runs its callback at most once: the first
invocation runs `_cleanup` and marks the finalizer dead; later invocations
are no-ops.  Handles are identified by `Nat` descriptors; `closeEvents`
logs every `sock.close()` call performed, in order.  `sent` logs every byte
written to the wire (by `sendall` or by a TLS handshake). -/

/-- Resource state of a `SafeStreamSocket`. -/

structure ConnState where
  gclist : List Nat
  alive : Bool
  closeEvents : List Nat
  sent : List Nat

/-- State of a freshly connected `SafeStreamSocket` whose primary handle is
`fd`. -/

def initConn (fd : Nat) : ConnState :=
  { gclist := [fd], alive := true, closeEvents := [], sent := [] }

/-- `SafeStreamSocket.close`: invoke the finalizer.  If it is still alive it
runs `_cleanup` (closing every handle in `_sock_gclist`, in order) and dies;
otherwise nothing happens. -/

def close (c : ConnState) : ConnState :=
  if c.alive then
    { c with alive := false, closeEvents := c.closeEvents ++ c.gclist }
  else c

/-- The `closed` property: `not self._finalizer.alive`. -/

def closedFlag (c : ConnState) : Bool := !c.alive

/-- `SafeStreamSocket.switch_to_ssl`, parameterized by the `os.path.isfile`
oracle, the fresh descriptor returned by `self._sock.dup()`, and the bytes
the TLS handshake would put on the wire.  Returns the connection state
after the call and a success flag: `false` models the `AssertionError`
raised by the `assert` on the very first line, in which case the
connection state is unchanged — no handle was duplicated, no handshake was
attempted, and nothing was sent. -/

def switch_to_ssl (isfile : String → Bool) (pemfile : String) (dup : Nat)
    (handshake : List Nat) (c : ConnState) : ConnState × Bool :=
  if isfile pemfile then
    ({ c with gclist := c.gclist ++ [dup], sent := c.sent ++ handshake }, true)
  else (c, false)

/-! ## `PlistSocket.send_packet` / `recv_packet`

```python
def __init__(self, addr: str, tag: int = 0):
    super().__init__(addr)
    ...
    self._tag = tag
    self._first = True

def send_packet(self, payload: dict, message_type: int = 8):
    body_data = plistlib.dumps(payload)
    if self._first:  # first package
        length = 16 + len(body_data)
        header = struct.pack("IIII", length, 1, message_type, self._tag)
    else:
        header = struct.pack(">I", len(body_data))
    self.sendall(header + body_data)

def recv_packet(self, header_size=None) -> dict:
    if self._first or header_size == 16:  # first receive
        header = self.recvall(16)
        (length, version, resp, tag) = struct.unpack("IIII", header)
        length -= 16  # minus header length
        self._first = False
    else:
        header = self.recvall(4)
        (length, ) = struct.unpack(">I", header)
    body_data = self.recvall(length)
    payload = plistlib.loads(body_data)
    ...
    return payload
```

Note `send_packet` never assigns `self._first`; only the 16-byte branch of
`recv_packet` does.  `struct.pack` raises `struct.error` for a value not
fitting in 32 bits, modelled as `none`. -/

/-- The protocol-relevant state of a `PlistSocket`: its `_tag` and `_first`
fields. -/

structure PSState where
  tag : Nat
  first : Bool
  deriving DecidableEq

/-- A freshly constructed `PlistSocket` (the non-copy branch of
`__init__`). -/

def initPlistSocket (tag : Nat) : PSState := { tag := tag, first := true }

/-- `PlistSocket.send_packet`.  Returns the bytes passed to `sendall`
(header then serialized payload, as one write) and the socket state after
the call; `none` models `struct.error` from a header field not fitting in
32 bits. -/

def send_packet (s : PSState) (payload : PlistValue) (message_type : Nat) :
    Option (List Nat × PSState) :=
  let body_data := plistDumps payload
  if s.first then
    let length := 16 + body_data.length
    if length < 2 ^ 32 ∧ message_type < 2 ^ 32 ∧ s.tag < 2 ^ 32 then
      some (u32le length ++ u32le 1 ++ u32le message_type ++ u32le s.tag ++
        body_data, s)
    else none
  else
    if body_data.length < 2 ^ 32 then
      some (u32be body_data.length ++ body_data, s)
    else none

/-- `PlistSocket.recv_packet` on a connected stream holding `stream` bytes.
Returns the decoded payload, the socket state after the call, and the bytes
left unconsumed on the stream; `none` models the `MuxError` of an
incomplete read or a `plistlib` failure on the body.  (The `version`,
`resp` and `tag` fields of a 16-byte header are unpacked by the source and
then never used, so only `length` appears here.) -/

def recv_packet (s : PSState) (header_size : Option Nat)
    (stream : List Nat) : Option (PlistValue × PSState × List Nat) :=
  if s.first = true ∨ header_size = some 16 then
    match recvExact 16 stream with
    | none => none
    | some (header, rest) =>
      let length := unU32le (header.take 4)
      match recvExact (length - 16) rest with
      | none => none
      | some (body_data, rest') =>
        match plistLoads body_data with
        | none => none
        | some payload => some (payload, { s with first := false }, rest')
  else
    match recvExact 4 stream with
    | none => none
    | some (header, rest) =>
      let length := unU32be header
      match recvExact length rest with
      | none => none
      | some (body_data, rest') =>
        match plistLoads body_data with
        | none => none
        | some payload => some (payload, s, rest')

/-- `PlistSocket.send_recv_packet`. -/

def send_recv_packet (s : PSState) (payload : PlistValue)
    (stream : List Nat) : Option (PlistValue × PSState × List Nat) :=
  match send_packet s payload 8 with
  | none => none
  | some (_, s') => recv_packet s' none stream

theorem u32le_length (n : Nat) : (u32le n).length = 4 := rfl

theorem u32be_length (n : Nat) : (u32be n).length = 4 := rfl

theorem unU32le_u32le (n : Nat) (h : n < 2 ^ 32) : unU32le (u32le n) = n := by
  simp only [u32le, unU32le]
  omega

theorem unU32be_u32be (n : Nat) (h : n < 2 ^ 32) : unU32be (u32be n) = n := by
  simp only [u32be, unU32be]
  omega

theorem parseStr_encStr (s : String) (rest : List Nat) :
    parseStr (encStr s ++ rest) = some (s, rest) := by
  have hlen : (s.toList.map Char.toNat).length = s.length := by
    rw [List.length_map]
    rfl
  simp only [encStr, List.cons_append, parseStr]
  rw [if_pos (by rw [List.length_append, hlen]; omega)]
  rw [List.take_left' hlen, List.drop_left' hlen]
  have hmap : (s.toList.map Char.toNat).map Char.ofNat = s.toList := by
    rw [List.map_map]
    have : ∀ l : List Char, l.map (Char.ofNat ∘ Char.toNat) = l := by
      intro l
      induction l with
      | nil => rfl
      | cons c cs ih => simp [Function.comp, Char.ofNat_toNat, ih]
    exact this s.toList
  rw [hmap]
  rfl

theorem plistDumps_len_two : ∀ v : PlistValue, 2 ≤ (plistDumps v).length := by
  intro v
  cases v <;> simp [plistDumps, encStr]

mutual

theorem fuelOf_le_len : ∀ v : PlistValue, fuelOf v ≤ (plistDumps v).length
  | .str s => by simp [fuelOf, plistDumps, encStr]
  | .int i => by simp [fuelOf, plistDumps]
  | .bool b => by simp [fuelOf, plistDumps]
  | .data d => by simp [fuelOf, plistDumps]
  | .array xs => by
    have h := fuelOfList_le_len xs
    simp only [fuelOf, plistDumps, List.length_cons]
    omega
  | .dict kvs => by
    have h := fuelOfDict_le_len kvs
    simp only [fuelOf, plistDumps, List.length_cons]
    omega

theorem fuelOfList_le_len : ∀ xs : List PlistValue, fuelOfList xs ≤ (dumpsList xs).length + 1
  | [] => by simp [fuelOfList]
  | v :: vs => by
    have h1 := fuelOf_le_len v
    have h2 := fuelOfList_le_len vs
    have h3 := plistDumps_len_two v
    simp only [fuelOfList, dumpsList, List.length_append]
    omega

theorem fuelOfDict_le_len :
    ∀ kvs : List (String × PlistValue), fuelOfDict kvs ≤ (dumpsDict kvs).length + 1
  | [] => by simp [fuelOfDict]
  | (k, v) :: kvs => by
    have h1 := fuelOf_le_len v
    have h2 := fuelOfDict_le_len kvs
    have h3 := plistDumps_len_two v
    simp only [fuelOfDict, dumpsDict, List.length_append]
    omega

end

mutual

theorem parseVal_dumps :
    ∀ (v : PlistValue) (fuel : Nat) (rest : List Nat),
      fuelOf v ≤ fuel → parseVal fuel (plistDumps v ++ rest) = some (v, rest)
  | .str s, fuel, rest => by
    intro h
    obtain ⟨f, rfl⟩ : ∃ f, fuel = f + 1 := ⟨fuel - 1, by simp [fuelOf] at h; omega⟩
    simp [plistDumps, parseVal, parseStr_encStr]
  | .int i, fuel, rest => by
    intro h
    obtain ⟨f, rfl⟩ : ∃ f, fuel = f + 1 := ⟨fuel - 1, by simp [fuelOf] at h; omega⟩
    by_cases hi : i < 0
    · have habs : -((i.natAbs : Int)) = i := by omega
      have habs2 : -|i| = i := by rw [abs_of_neg hi]; ring
      simp [plistDumps, parseVal, hi, habs, habs2]
    · have habs : ((i.natAbs : Int)) = i := by omega
      have habs2 : |i| = i := abs_of_nonneg (le_of_not_lt hi)
      simp [plistDumps, parseVal, hi, habs, habs2]
  | .bool b, fuel, rest => by
    intro h
    obtain ⟨f, rfl⟩ : ∃ f, fuel = f + 1 := ⟨fuel - 1, by simp [fuelOf] at h; omega⟩
    cases b <;> simp [plistDumps, parseVal]
  | .data d, fuel, rest => by
    intro h
    obtain ⟨f, rfl⟩ : ∃ f, fuel = f + 1 := ⟨fuel - 1, by simp [fuelOf] at h; omega⟩
    simp [plistDumps, parseVal, List.take_left, List.drop_left, Nat.le_add_right]
  | .array xs, fuel, rest => by
    intro h
    obtain ⟨f, rfl⟩ : ∃ f, fuel = f + 1 :=
      ⟨fuel - 1, by simp only [fuelOf] at h; omega⟩
    have hxs : fuelOfList xs ≤ f := by simp only [fuelOf] at h; omega
    simp [plistDumps, parseVal, parseList_dumps xs f rest hxs]
  | .dict kvs, fuel, rest => by
    intro h
    obtain ⟨f, rfl⟩ : ∃ f, fuel = f + 1 :=
      ⟨fuel - 1, by simp only [fuelOf] at h; omega⟩
    have hkvs : fuelOfDict kvs ≤ f := by simp only [fuelOf] at h; omega
    simp [plistDumps, parseVal, parseDict_dumps kvs f rest hkvs]

theorem parseList_dumps :
    ∀ (xs : List PlistValue) (fuel : Nat) (rest : List Nat),
      fuelOfList xs ≤ fuel →
      parseList fuel xs.length (dumpsList xs ++ rest) = some (xs, rest)
  | [], fuel, rest => by
    intro _
    simp [dumpsList, parseList]
  | v :: vs, fuel, rest => by
    intro h
    obtain ⟨f, rfl⟩ : ∃ f, fuel = f + 1 :=
      ⟨fuel - 1, by simp only [fuelOfList] at h; omega⟩
    have hv : fuelOf v ≤ f := by simp only [fuelOfList] at h; omega
    have hvs : fuelOfList vs ≤ f := by simp only [fuelOfList] at h; omega
    simp only [dumpsList, List.length_cons, List.append_assoc, parseList,
      parseVal_dumps v f (dumpsList vs ++ rest) hv,
      parseList_dumps vs f rest hvs]

theorem parseDict_dumps :
    ∀ (kvs : List (String × PlistValue)) (fuel : Nat) (rest : List Nat),
      fuelOfDict kvs ≤ fuel →
      parseDict fuel kvs.length (dumpsDict kvs ++ rest) = some (kvs, rest)
  | [], fuel, rest => by
    intro _
    simp [dumpsDict, parseDict]
  | (k, v) :: kvs, fuel, rest => by
    intro h
    obtain ⟨f, rfl⟩ : ∃ f, fuel = f + 1 :=
      ⟨fuel - 1, by simp only [fuelOfDict] at h; omega⟩
    have hv : fuelOf v ≤ f := by simp only [fuelOfDict] at h; omega
    have hkvs : fuelOfDict kvs ≤ f := by simp only [fuelOfDict] at h; omega
    simp only [dumpsDict, List.length_cons, List.append_assoc, parseDict,
      parseStr_encStr k (plistDumps v ++ (dumpsDict kvs ++ rest)),
      parseVal_dumps v f (dumpsDict kvs ++ rest) hv,
      parseDict_dumps kvs f rest hkvs]

end

/-- `plistlib.loads` inverts `plistlib.dumps` on every plist value. -/

theorem plistLoads_dumps (v : PlistValue) : plistLoads (plistDumps v) = some v := by
  have h := parseVal_dumps v ((plistDumps v).length + 1) []
    (le_trans (fuelOf_le_len v) (Nat.le_succ _))
  rw [List.append_nil] at h
  simp [plistLoads, h]

theorem uniqCounterAfter_eq (n0 k : Nat) : uniqCounterAfter n0 k = n0 + k := by
  induction k with
  | zero => rfl
  | succ k ih => simp [uniqCounterAfter, get_uniq_id, ih]; omega

theorem uniqIdAt_eq (n0 k : Nat) : uniqIdAt n0 k = n0 + k + 1 := by
  simp [uniqIdAt, get_uniq_id, uniqCounterAfter_eq]

theorem recvallGo_spec :
    ∀ (n : Nat) (data : List Nat), data.length ≤ n →
      ∀ (sched : Nat → Nat) (i size : Nat) (buf : List Nat) (calls : Nat),
      (size ≤ buf.length + data.length →
        ∃ c, recvallGo sched i size buf data calls =
          some (buf ++ data.take (size - buf.length),
                data.drop (size - buf.length), c)) ∧
      (buf.length + data.length < size →
        recvallGo sched i size buf data calls = none) := by
  intro n
  induction n with
  | zero =>
    intro data hlen sched i size buf calls
    have hdata : data = [] := List.eq_nil_of_length_eq_zero (by omega)
    subst hdata
    by_cases hbs : buf.length < size
    · constructor
      · intro hsz
        omega
      · intro _
        rw [recvallGo, dif_pos hbs]
        simp [sockRecv]
    · constructor
      · intro hsz
        refine ⟨calls, ?_⟩
        rw [recvallGo, dif_neg hbs]
        have hz : size - buf.length = 0 := by omega
        simp [hz]
      · intro habs
        omega
  | succ n ih =>
    intro data hlen sched i size buf calls
    by_cases hbs : buf.length < size
    · rcases hdata : data with _ | ⟨d, ds⟩
      · constructor
        · intro hsz
          simp at hsz
          omega
        · intro _
          rw [recvallGo, dif_pos hbs]
          simp [sockRecv]
      · rw [← hdata]
        have hdne : data ≠ [] := by rw [hdata]; exact List.cons_ne_nil d ds
        have hdpos : 0 < data.length := List.length_pos.mpr hdne
        set k := min (size - buf.length) (max (sched i) 1) with hk
        have hk1 : 1 ≤ k := by omega
        have hke : k ≤ size - buf.length := by omega
        have hchunk_ne : data.take k ≠ [] := by
          rw [Ne, List.take_eq_nil_iff]
          push_neg
          exact ⟨by omega, hdne⟩
        have hstep : recvallGo sched i size buf data calls =
            recvallGo sched (i + 1) size (buf ++ data.take k) (data.drop k)
              (calls + 1) := by
          rw [recvallGo, dif_pos hbs]
          simp only [sockRecv, ← hk]
          rw [dif_neg (by simpa [List.isEmpty_iff] using hchunk_ne)]
        have hrest : (data.drop k).length ≤ n := by
          rw [List.length_drop]
          omega
        have hIH := ih (data.drop k) hrest sched (i + 1) size
          (buf ++ data.take k) (calls + 1)
        have hsum : (buf ++ data.take k).length + (data.drop k).length =
            buf.length + data.length := by
          simp [List.length_take, List.length_drop]
          omega
        constructor
        · intro hsz
          have hkd : k ≤ data.length := by omega
          have htklen : (data.take k).length = k := by
            rw [List.length_take]
            omega
          obtain ⟨c, hc⟩ := hIH.1 (by omega)
          refine ⟨c, ?_⟩
          rw [hstep, hc]
          have hlen2 : (buf ++ data.take k).length = buf.length + k := by
            rw [List.length_append, htklen]
          rw [hlen2]
          have he : size - (buf.length + k) = (size - buf.length) - k := by omega
          rw [he]
          have htake : data.take k ++ (data.drop k).take (size - buf.length - k) =
              data.take (size - buf.length) := by
            rw [← List.take_add]
            congr 1
            omega
          have hdrop : (data.drop k).drop (size - buf.length - k) =
              data.drop (size - buf.length) := by
            rw [List.drop_drop]
            congr 1
            omega
          rw [List.append_assoc, htake, hdrop]
        · intro hlt
          rw [hstep]
          exact hIH.2 (by omega)
    · constructor
      · intro hsz
        refine ⟨calls, ?_⟩
        rw [recvallGo, dif_neg hbs]
        have hz : size - buf.length = 0 := by omega
        simp [hz]
      · intro habs
        omega

/-- `recvall` delivers exactly the behaviour of `recvExact`, whatever the
chunking schedule of the underlying socket. -/

theorem recvall_eq_recvExact (sched : Nat → Nat) (size : Nat)
    (data : List Nat) :
    (recvall sched size data).map (fun r => (r.1, r.2.1)) =
      recvExact size data := by
  have h := recvallGo_spec data.length data le_rfl sched 0 size [] 0
  rw [recvExact]
  by_cases hsz : size ≤ data.length
  · obtain ⟨c, hc⟩ := h.1 (by simpa using hsz)
    rw [recvall, hc]
    simp [hsz]
  · rw [recvall, h.2 (by simp; omega)]
    rw [if_neg hsz]
    rfl

theorem recvExact_append' (n : Nat) (l rest : List Nat) (h : l.length = n) :
    recvExact n (l ++ rest) = some (l, rest) := by
  rw [recvExact, if_pos (by rw [List.length_append]; omega)]
  rw [List.take_left' h, List.drop_left' h]

theorem recvExact_all (l : List Nat) : recvExact l.length l = some (l, []) := by
  simp [recvExact]

theorem send_packet_first (s : PSState) (p : PlistValue) (mt : Nat)
    (hf : s.first = true) (hlen : 16 + (plistDumps p).length < 2 ^ 32)
    (hmt : mt < 2 ^ 32) (htag : s.tag < 2 ^ 32) :
    send_packet s p mt =
      some (u32le (16 + (plistDumps p).length) ++ u32le 1 ++ u32le mt ++
        u32le s.tag ++ plistDumps p, s) := by
  rw [send_packet]
  simp only [hf, if_true]
  rw [if_pos ⟨hlen, hmt, htag⟩]

theorem send_packet_sub (s : PSState) (p : PlistValue) (mt : Nat)
    (hf : s.first = false) (hlen : (plistDumps p).length < 2 ^ 32) :
    send_packet s p mt =
      some (u32be (plistDumps p).length ++ plistDumps p, s) := by
  rw [send_packet]
  simp only [hf, if_false, Bool.false_eq_true]
  rw [if_pos hlen]

theorem recv_packet_first (s : PSState) (hso : Option Nat)
    (hcond : s.first = true ∨ hso = some 16) (a b c : Nat)
    (body ext : List Nat) (hlen : 16 + body.length < 2 ^ 32)
    (p : PlistValue) (hload : plistLoads body = some p) :
    recv_packet s hso
      (u32le (16 + body.length) ++ u32le a ++ u32le b ++ u32le c ++
        (body ++ ext)) = some (p, { s with first := false }, ext) := by
  have h16 : (u32le (16 + body.length) ++ u32le a ++ u32le b ++
      u32le c).length = 16 := by
    simp [u32le]
  have hA : recvExact 16 (u32le (16 + body.length) ++ u32le a ++ u32le b ++
      u32le c ++ (body ++ ext)) =
      some (u32le (16 + body.length) ++ u32le a ++ u32le b ++ u32le c,
        body ++ ext) :=
    recvExact_append' 16 _ _ h16
  have htk : (u32le (16 + body.length) ++ u32le a ++ u32le b ++
      u32le c).take 4 = u32le (16 + body.length) := by
    simp only [List.append_assoc]
    exact List.take_left' (u32le_length _)
  rw [recv_packet, if_pos hcond, hA]
  simp only [htk, unU32le_u32le _ hlen]
  have hsub : 16 + body.length - 16 = body.length := by omega
  rw [hsub, recvExact_append' body.length body ext rfl]
  simp [hload]

theorem recv_packet_sub (s : PSState) (hso : Option Nat)
    (hcond : ¬(s.first = true ∨ hso = some 16)) (body ext : List Nat)
    (hlen : body.length < 2 ^ 32) (p : PlistValue)
    (hload : plistLoads body = some p) :
    recv_packet s hso (u32be body.length ++ body ++ ext) =
      some (p, s, ext) := by
  have hB : recvExact 4 (u32be body.length ++ body ++ ext) =
      some (u32be body.length, body ++ ext) := by
    rw [List.append_assoc]
    exact recvExact_append' 4 _ _ (u32be_length _)
  rw [recv_packet, if_neg hcond, hB]
  simp only [unU32be_u32be _ hlen]
  rw [recvExact_append' body.length body ext rfl]
  simp [hload]

/-! ## Claims -/

/-- Claim C1: serializing and framing a payload with `send_packet` and
parsing the resulting bytes with `recv_packet` on the other end of a
loopback pair yields the payload exactly, both on the first-message
(16-byte header) path and on the subsequent-message (4-byte header)
path. -/

theorem c1_send_recv_roundtrip (entries : List (String × PlistValue))
    (stag rtag mt : Nat)
    (hlen : 16 + (plistDumps (.dict entries)).length < 2 ^ 32)
    (hmt : mt < 2 ^ 32) (htag : stag < 2 ^ 32) :
    (∃ wire, send_packet ⟨stag, true⟩ (.dict entries) mt =
        some (wire, ⟨stag, true⟩) ∧
      recv_packet ⟨rtag, true⟩ none wire =
        some (.dict entries, ⟨rtag, false⟩, [])) ∧
    (∃ wire, send_packet ⟨stag, false⟩ (.dict entries) mt =
        some (wire, ⟨stag, false⟩) ∧
      recv_packet ⟨rtag, false⟩ none wire =
        some (.dict entries, ⟨rtag, false⟩, [])) := by
  constructor
  · refine ⟨_, send_packet_first ⟨stag, true⟩ (.dict entries) mt rfl hlen hmt
      htag, ?_⟩
    have h := recv_packet_first ⟨rtag, true⟩ none (Or.inl rfl) 1 mt stag
      (plistDumps (.dict entries)) [] hlen (.dict entries)
      (plistLoads_dumps (.dict entries))
    rw [List.append_nil] at h
    exact h
  · refine ⟨_, send_packet_sub ⟨stag, false⟩ (.dict entries) mt rfl
      (by omega), ?_⟩
    have h := recv_packet_sub ⟨rtag, false⟩ none (by simp)
      (plistDumps (.dict entries)) [] (by omega) (.dict entries)
      (plistLoads_dumps (.dict entries))
    rw [List.append_nil] at h
    exact h

/-- Witness for C1 at the concrete payload `{"Request": "Hello"}`, sender
tag 1, receiver tag 7, message type 8. -/

theorem c1_witness :
    (∃ wire, send_packet ⟨1, true⟩ (.dict [("Request", .str "Hello")]) 8 =
        some (wire, ⟨1, true⟩) ∧
      recv_packet ⟨7, true⟩ none wire =
        some (.dict [("Request", .str "Hello")], ⟨7, false⟩, [])) ∧
    (∃ wire, send_packet ⟨1, false⟩ (.dict [("Request", .str "Hello")]) 8 =
        some (wire, ⟨1, false⟩) ∧
      recv_packet ⟨7, false⟩ none wire =
        some (.dict [("Request", .str "Hello")], ⟨7, false⟩, [])) :=
  c1_send_recv_roundtrip [("Request", .str "Hello")] 1 7 8 (by decide)
    (by decide) (by decide)

/-- Claim C9 (implicit): on a channel past its first message, the
`message_type` argument has no effect on the bytes `send_packet` writes:
the 4-byte subsequent-message header carries only the payload length. -/

theorem c9_message_type_no_effect (s : PSState) (p : PlistValue)
    (mt1 mt2 : Nat) (h : s.first = false) :
    send_packet s p mt1 = send_packet s p mt2 := by
  rw [send_packet, send_packet]
  simp [h]

/-- Witness for C9: same payload and channel state, message types 8 and 99. -/

theorem c9_witness :
    send_packet ⟨0, false⟩ (.dict [("Request", .str "Hello")]) 8 =
      send_packet ⟨0, false⟩ (.dict [("Request", .str "Hello")]) 99 :=
  c9_message_type_no_effect ⟨0, false⟩ (.dict [("Request", .str "Hello")])
    8 99 rfl

/-- Counterexample to claim C2: on a freshly constructed channel, two calls
to `send_packet` with no receive in between BOTH produce a 16-byte header
(`send_packet` never assigns `self._first`; only `recv_packet` does), so
the second send emits `16 + len(body)` bytes, not `4 + len(body)` as the
claim requires. -/

theorem c2_counterexample :
    ((send_packet (initPlistSocket 0) (.dict []) 8).bind fun r =>
        send_packet r.2 (.dict []) 8).map (fun r => r.1.length) =
      some (16 + (plistDumps (.dict [])).length) ∧
    16 + (plistDumps (.dict [])).length ≠
      4 + (plistDumps (.dict [])).length := by
  constructor
  · rfl
  · decide

/-- Claim C2, amended: the first call to `send_packet` produces a 16-byte
header, but `send_packet` never clears the first-message flag — the flag is
cleared only by the first `recv_packet` (its 16-byte-header path).  Hence
sends produce 16-byte headers until the first receive has occurred, after
which every send produces a 4-byte header; once false the flag stays false
for the rest of the channel's life (sends leave the state unchanged, and
every successful receive leaves the flag false). -/

theorem c2_first_flag_lifecycle :
    ((initPlistSocket 0).first = true) ∧
    (∀ (s : PSState) (p : PlistValue) (mt : Nat) (out : List Nat × PSState),
      send_packet s p mt = some out → out.2 = s) ∧
    (∀ (s : PSState) (p : PlistValue) (mt : Nat) (out : List Nat × PSState),
      s.first = true → send_packet s p mt = some out →
      out.1.length = 16 + (plistDumps p).length) ∧
    (∀ (s : PSState) (p : PlistValue) (mt : Nat) (out : List Nat × PSState),
      s.first = false → send_packet s p mt = some out →
      out.1 = u32be (plistDumps p).length ++ plistDumps p) ∧
    (∀ (s : PSState) (hso : Option Nat) (stream : List Nat)
      (res : PlistValue × PSState × List Nat),
      recv_packet s hso stream = some res → res.2.1.first = false) := by
  refine ⟨rfl, ?_, ?_, ?_, ?_⟩
  · intro s p mt out h
    rw [send_packet] at h
    split at h
    · try dsimp only at h
      split at h
      · injection h with h'
        rw [← h']
      · exact absurd h (by simp)
    · try dsimp only at h
      split at h
      · injection h with h'
        rw [← h']
      · exact absurd h (by simp)
  · intro s p mt out hf h
    rw [send_packet] at h
    simp only [hf, if_true] at h
    try dsimp only at h
    split at h
    · injection h with h'
      rw [← h']
      simp only [List.length_append, u32le_length]
    · exact absurd h (by simp)
  · intro s p mt out hf h
    rw [send_packet] at h
    simp only [hf, Bool.false_eq_true, if_false] at h
    try dsimp only at h
    split at h
    · injection h with h'
      rw [← h']
    · exact absurd h (by simp)
  · intro s hso stream res h
    rw [recv_packet] at h
    split at h
    · split at h
      · exact Option.noConfusion h
      · dsimp only at h
        split at h
        · exact Option.noConfusion h
        · split at h
          · exact Option.noConfusion h
          · injection h with h'
            rw [← h']
    · rename_i hcond
      have hf : s.first = false := by
        rcases not_or.mp hcond with ⟨h1, _⟩
        exact Bool.not_eq_true _ ▸ eq_false_of_ne_true h1
      split at h
      · exact Option.noConfusion h
      · dsimp only at h
        split at h
        · exact Option.noConfusion h
        · split at h
          · exact Option.noConfusion h
          · injection h with h'
            rw [← h']
            exact hf

/-- Witness for C2 (amended): a fresh channel, a first send (16-byte
header), a receive clearing the flag, and a subsequent 4-byte-header
send. -/

theorem c2_witness :
    (∀ out, send_packet (initPlistSocket 0) (.dict []) 8 = some out →
      out.1.length = 16 + (plistDumps (.dict [])).length) ∧
    (∀ out, send_packet ⟨0, false⟩ (.dict []) 8 = some out →
      out.1 = u32be (plistDumps (.dict [])).length ++ plistDumps (.dict [])) :=
  ⟨fun out h => c2_first_flag_lifecycle.2.2.1 (initPlistSocket 0) (.dict [])
      8 out rfl h,
   fun out h => c2_first_flag_lifecycle.2.2.2.1 ⟨0, false⟩ (.dict [])
      8 out rfl h⟩

/-- Claim C4: past the first message, `send_packet` writes a 4-byte
big-endian payload-length header; the first-message header is 16 bytes
packing `[16 + payload length, 1, message_type, tag]` in one consistent
fixed (little-endian) byte order, which differs from the big-endian
convention of subsequent headers; and `recv_packet` decodes each header
with the matching byte order. -/

theorem c4_header_byte_orders (s : PSState) (p : PlistValue) (mt : Nat)
    (body ext : List Nat) (q : PlistValue)
    (hlen : 16 + (plistDumps p).length < 2 ^ 32) (hmt : mt < 2 ^ 32)
    (htag : s.tag < 2 ^ 32) (hb : 16 + body.length < 2 ^ 32)
    (hq : plistLoads body = some q) :
    (s.first = true → send_packet s p mt =
      some (u32le (16 + (plistDumps p).length) ++ u32le 1 ++ u32le mt ++
        u32le s.tag ++ plistDumps p, s)) ∧
    (s.first = false → send_packet s p mt =
      some (u32be (plistDumps p).length ++ plistDumps p, s)) ∧
    (∀ n, n < 2 ^ 32 → unU32le (u32le n) = n ∧ unU32be (u32be n) = n) ∧
    u32le 1 ≠ u32be 1 ∧
    (∀ a b c, s.first = true →
      recv_packet s none (u32le (16 + body.length) ++ u32le a ++ u32le b ++
        u32le c ++ (body ++ ext)) =
      some (q, { s with first := false }, ext)) ∧
    (s.first = false →
      recv_packet s none (u32be body.length ++ body ++ ext) =
      some (q, s, ext)) := by
  refine ⟨?_, ?_, ?_, ?_, ?_, ?_⟩
  · intro hf
    exact send_packet_first s p mt hf hlen hmt htag
  · intro hf
    exact send_packet_sub s p mt hf (by omega)
  · intro n hn
    exact ⟨unU32le_u32le n hn, unU32be_u32be n hn⟩
  · decide
  · intro a b c hf
    exact recv_packet_first s none (Or.inl hf) a b c body ext hb q hq
  · intro hf
    exact recv_packet_sub s none (by simp [hf]) body ext (by omega) q hq

/-- Witness for C4 at payload `{"Request": "Hello"}` on a channel with
tag 1, and a received body encoding the same payload. -/

theorem c4_witness :
    (send_packet ⟨1, true⟩ (.dict [("Request", .str "Hello")]) 8 =
      some (u32le (16 +
          (plistDumps (.dict [("Request", .str "Hello")])).length) ++
        u32le 1 ++ u32le 8 ++ u32le 1 ++
        plistDumps (.dict [("Request", .str "Hello")]), ⟨1, true⟩)) ∧
    (send_packet ⟨1, false⟩ (.dict [("Request", .str "Hello")]) 8 =
      some (u32be (plistDumps (.dict [("Request", .str "Hello")])).length ++
        plistDumps (.dict [("Request", .str "Hello")]), ⟨1, false⟩)) ∧
    u32le 1 ≠ u32be 1 :=
  have h := c4_header_byte_orders ⟨1, true⟩ (.dict [("Request", .str "Hello")])
    8 (plistDumps (.dict [("Request", .str "Hello")])) []
    (.dict [("Request", .str "Hello")]) (by decide) (by decide) (by decide)
    (by decide) (plistLoads_dumps _)
  have h2 := c4_header_byte_orders ⟨1, false⟩
    (.dict [("Request", .str "Hello")]) 8
    (plistDumps (.dict [("Request", .str "Hello")])) []
    (.dict [("Request", .str "Hello")]) (by decide) (by decide) (by decide)
    (by decide) (plistLoads_dumps _)
  ⟨h.1 rfl, h2.2.1 rfl, h.2.2.2.1⟩

/-- Claim C5: for every `n` and every stream delivering bytes in
arbitrarily small chunks (any chunking schedule; a short read is not an
error), `recvall n` loops accumulating partial reads and returns exactly
`n` bytes; it fails with the "connection broken" error (`none`) if and
only if a zero-byte read occurs while the buffer is still incomplete —
that is, exactly when the stream holds fewer than `n` bytes. -/

theorem c5_recvall_exact (sched : Nat → Nat) (size : Nat)
    (data : List Nat) :
    (size ≤ data.length →
      ∃ c, recvall sched size data = some (data.take size, data.drop size, c) ∧
        (data.take size).length = size) ∧
    (data.length < size → recvall sched size data = none) := by
  have h := recvallGo_spec data.length data le_rfl sched 0 size [] 0
  constructor
  · intro hsz
    obtain ⟨c, hc⟩ := h.1 (by simpa using hsz)
    exact ⟨c, by simpa using hc, by rw [List.length_take]; omega⟩
  · intro hsz
    exact h.2 (by simpa using hsz)

/-- Witness for C5: a stream of 3 bytes delivered one byte per read
satisfies `recvall 2` exactly, and `recvall 5` on the same stream fails
with the connection-broken error. -/

theorem c5_witness :
    (∃ c, recvall (fun _ => 1) 2 [5, 6, 7] =
        some ([5, 6, 7].take 2, [5, 6, 7].drop 2, c) ∧
      ([5, 6, 7].take 2).length = 2) ∧
    recvall (fun _ => 1) 5 [5, 6, 7] = none :=
  ⟨(c5_recvall_exact (fun _ => 1) 2 [5, 6, 7]).1 (by decide),
   (c5_recvall_exact (fun _ => 1) 5 [5, 6, 7]).2 (by decide)⟩

/-- Claim C10 (implicit): `recvall 0` returns an empty byte sequence
without performing any read on the underlying socket (zero `recv` calls),
for every stream state — including the empty stream of an
already-closed peer. -/

theorem c10_recvall_zero (sched : Nat → Nat) (data : List Nat) :
    recvall sched 0 data = some ([], data, 0) := by
  rw [recvall, recvallGo]
  simp

/-- Counterexample to claim C3: a string without a colon that names no
existing filesystem path is NOT treated as a TCP host — `__init__` raises
`MuxError("socket unix:... unable to connect")`, rejecting it. -/

theorem c3_counterexample :
    connectAddr (fun _ => false) (.str "testhost") =
      .muxError "socket unix:testhost unable to connect" := by
  rfl

/-- Claim C3, amended: a string containing a colon is parsed as
`host:port` and connected over TCP (when the port text parses as an
integer); a colon-free string naming an existing filesystem path is
connected as a local domain socket; and any other string is rejected with
`MuxError("socket unix:... unable to connect")` rather than being treated
as a TCP host. -/

theorem c3_connect_dispatch (pe : String → Bool) (s : String) :
    (hasColon s = true → ∀ p, pyInt (splitColon1 s).2 = some p →
      connectAddr pe (.str s) = .tcpConnect (splitColon1 s).1 p) ∧
    (hasColon s = false → pe s = true →
      connectAddr pe (.str s) = .unixConnect s) ∧
    (hasColon s = false → pe s = false →
      connectAddr pe (.str s) =
        .muxError ("socket unix:" ++ s ++ " unable to connect")) := by
  refine ⟨?_, ?_, ?_⟩
  · intro hc p hp
    rw [connectAddr]
    simp only [hc, if_true, hp]
  · intro hc hpe
    rw [connectAddr]
    simp [hc, hpe]
  · intro hc hpe
    rw [connectAddr]
    simp [hc, hpe]

/-- Witness for C3 (amended): `"h:1"` connects over TCP to host `"h"`
port `1`; `"p"` with an existing path connects as a unix socket; `"x"`
with no existing path is rejected with `MuxError`. -/

theorem c3_witness :
    connectAddr (fun _ => false) (.str "h:1") = .tcpConnect "h" 1 ∧
    connectAddr (fun _ => true) (.str "p") = .unixConnect "p" ∧
    connectAddr (fun _ => false) (.str "x") =
      .muxError ("socket unix:" ++ "x" ++ " unable to connect") :=
  ⟨by
    have h := (c3_connect_dispatch (fun _ => false) "h:1").1 (by decide) 1
      (by decide)
    simpa using h,
   (c3_connect_dispatch (fun _ => true) "p").2.1 (by decide) rfl,
   (c3_connect_dispatch (fun _ => false) "x").2.2 (by decide) rfl⟩

/-- Claim C6: `close` closes every owned handle — primary plus the extra
duplicate retained by `switch_to_ssl` — exactly once: the first close logs
one `sock.close()` per owned handle, a second (or any later) `close` is a
no-op (state unchanged, no further close of already-closed handles), and
the closed flag transitions false to true exactly once. -/

theorem c6_close_exactly_once (fd dup : Nat) (isf : String → Bool)
    (pem : String) (hs : List Nat) (c : ConnState)
    (hok : isf pem = true) :
    (close (close c) = close c) ∧
    (c.alive = true →
      (close c).closeEvents = c.closeEvents ++ c.gclist ∧
      (close c).alive = false ∧ closedFlag c = false ∧
      closedFlag (close c) = true) ∧
    ((close (switch_to_ssl isf pem dup hs (initConn fd)).1).closeEvents =
      [fd, dup] ∧
     close (close (switch_to_ssl isf pem dup hs (initConn fd)).1) =
      close (switch_to_ssl isf pem dup hs (initConn fd)).1) := by
  refine ⟨?_, ?_, ?_, ?_⟩
  · by_cases ha : c.alive = true
    · simp [close, ha]
    · simp [close, ha]
  · intro ha
    rw [close, if_pos ha]
    simp [closedFlag, ha]
  · rw [switch_to_ssl, if_pos hok]
    simp [close, initConn]
  · rw [switch_to_ssl, if_pos hok]
    simp [close, initConn]

/-- Witness for C6 at a connection with primary handle 3, duplicate 4, a
live unclosed state. -/

theorem c6_witness :
    (close (close (initConn 3)) = close (initConn 3)) ∧
    ((close (initConn 3)).closeEvents = (initConn 3).closeEvents ++
        (initConn 3).gclist ∧
      (close (initConn 3)).alive = false ∧
      closedFlag (initConn 3) = false ∧
      closedFlag (close (initConn 3)) = true) ∧
    ((close (switch_to_ssl (fun _ => true) "k.pem" 4 [] (initConn 3)).1).closeEvents
        = [3, 4] ∧
      close (close (switch_to_ssl (fun _ => true) "k.pem" 4 [] (initConn 3)).1)
        = close (switch_to_ssl (fun _ => true) "k.pem" 4 [] (initConn 3)).1) :=
  have h := c6_close_exactly_once 3 4 (fun _ => true) "k.pem" [] (initConn 3)
    rfl
  ⟨h.1, h.2.1 rfl, h.2.2⟩

/-- Claim C7: when the identity-material (PEM) file path given to
`switch_to_ssl` does not name an existing file, the upgrade fails
immediately (the `assert os.path.isfile(pemfile)` on its first line):
the connection state is unchanged — no duplicate handle was added and no
bytes were sent on the wire, so no handshake was attempted. -/

theorem c7_ssl_missing_pem (isf : String → Bool) (pem : String) (dup : Nat)
    (hs : List Nat) (c : ConnState) (h : isf pem = false) :
    switch_to_ssl isf pem dup hs c = (c, false) ∧
    (switch_to_ssl isf pem dup hs c).1.sent = c.sent ∧
    (switch_to_ssl isf pem dup hs c).1.gclist = c.gclist := by
  rw [switch_to_ssl]
  simp [h]

/-- Witness for C7: upgrading a fresh connection with a path that exists
for no file fails with the state untouched. -/

theorem c7_witness :
    switch_to_ssl (fun _ => false) "/missing.pem" 4 [9, 9] (initConn 3) =
      (initConn 3, false) ∧
    (switch_to_ssl (fun _ => false) "/missing.pem" 4 [9, 9]
        (initConn 3)).1.sent = (initConn 3).sent ∧
    (switch_to_ssl (fun _ => false) "/missing.pem" 4 [9, 9]
        (initConn 3)).1.gclist = (initConn 3).gclist :=
  c7_ssl_missing_pem (fun _ => false) "/missing.pem" 4 [9, 9] (initConn 3)
    rfl

/-- Claim C8: every call to `get_uniq_id` returns a value strictly greater
than every value returned by any earlier call (so values are pairwise
distinct and strictly increasing across the process lifetime). -/

theorem c8_uniq_id_increasing (n0 j k : Nat) (h : j < k) :
    uniqIdAt n0 j < uniqIdAt n0 k ∧ uniqIdAt n0 j ≠ uniqIdAt n0 k := by
  rw [uniqIdAt_eq, uniqIdAt_eq]
  omega

/-- Witness for C8: from the initial counter 0, the 1st call returns less
than the 3rd. -/

theorem c8_witness :
    uniqIdAt 0 0 < uniqIdAt 0 2 ∧ uniqIdAt 0 0 ≠ uniqIdAt 0 2 :=
  c8_uniq_id_increasing 0 0 2 (by decide)

end SafeSocket
